import Mathlib

/-!
Verification development for the InvestiCAT repository.

Two parts are modelled here:

1. The document-to-knowledge-graph extraction pipeline (ETL processor).
   Its Python implementation (`document_processor_neo4j.py`) is not part of
   the checked-out sources; only its README documentation and the design
   specification are.  All pipeline definitions below are therefore marked
   `Modelled from the spec:` and follow the specification text
   (sections 3, 4.1-4.7, 6, 7) and the README output examples.

2. The Timeline React component (`src/app/src/components/Timeline.tsx`),
   whose `filteredEvents` and `toggleEventExpansion` functions are embedded
   directly from the TypeScript source.
-/

namespace InvestiCAT

/-! ### Basic character and string helpers -/

/-- ASCII lower-casing of a single character. -/
def lowerChar (c : Char) : Char :=
  if 'A' ≤ c ∧ c ≤ 'Z' then Char.ofNat (c.toNat + 32) else c

/-- Whitespace test used for trimming and word splitting. -/
def isWS (c : Char) : Bool :=
  c == ' ' || c == '\n' || c == '\t' || c == '\r'

/-- Trim whitespace from both ends of a character list. -/
def trimChars (l : List Char) : List Char :=
  ((l.dropWhile isWS).reverse.dropWhile isWS).reverse

/-- Split a sequence at separator elements, accumulator-style.
The separators are dropped; empty chunks are kept. -/
def splitSeq {α : Type} (p : α → Bool) : List α → List α → List (List α)
  | [], acc => [acc.reverse]
  | c :: cs, acc =>
    if p c then acc.reverse :: splitSeq p cs [] else splitSeq p cs (c :: acc)

/-! ### Decimal rendering of counters (used by the Identifier Assigner) -/

/-- The ASCII digit character for `d % 10`. -/
def digitCh (d : Nat) : Char := Char.ofNat (48 + d % 10)

/-- Decimal digit characters of `n`, most significant first; `fuel`
bounds the recursion depth. -/
def toDec : Nat → Nat → List Char
  | 0, _ => []
  | fuel + 1, n =>
    if n < 10 then [digitCh n] else toDec fuel (n / 10) ++ [digitCh (n % 10)]

/-- Decimal rendering of a natural number as a string. -/
def natToStr (n : Nat) : String := String.mk (toDec (n + 1) n)

/-- Numeric value of a digit-character list (inverse of `toDec`). -/
def decVal (l : List Char) : Nat :=
  l.foldl (fun a c => 10 * a + (c.toNat - 48)) 0

/-- Modelled from the spec: id of form `<type>_<n>` produced by the
Identifier Assigner (spec 4.5). -/
def mkId (ty : String) (n : Nat) : String := ty ++ "_" ++ natToStr n

/-! ### Pipeline data model (spec section 3) -/

/-- Modelled from the spec: a pre-normalization extraction result
(spec section 3, missing `document_processor_neo4j.py`).  Raw
date/location/participant strings plus provenance (the passage text). -/
structure CandidateEvent where
  title : String
  summary : String
  rawDate : String
  rawLocation : String
  rawParticipants : String
  provenance : String
deriving DecidableEq, Repr

/-- Modelled from the spec: Event output node with id, title, summary. -/
structure EventNode where
  id : String
  title : String
  summary : String
deriving DecidableEq, Repr

/-- Modelled from the spec: DateRecord output node.  By design it carries
no id; the ISO-8601 date value itself is the join key. -/
structure DateRecord where
  date : String
deriving DecidableEq, Repr

/-- Modelled from the spec: LocationRecord output node. -/
structure LocationRecord where
  id : String
  address : String
deriving DecidableEq, Repr

/-- Modelled from the spec: EntityRecord output node. -/
structure EntityRecord where
  id : String
  name : String
deriving DecidableEq, Repr

/-- Modelled from the spec: DocumentRecord output node, exactly one per
invocation. -/
structure DocumentRecord where
  id : String
  filename : String
deriving DecidableEq, Repr

/-- Modelled from the spec: User placeholder output node. -/
structure UserRecord where
  id : String
  email : String
  name : String
  password : String
deriving DecidableEq, Repr

/-- Modelled from the spec: the four document-level relationship types. -/
inductive RelType where
  | MENTIONS
  | OCCURRED_ON
  | OCCURRED_AT
  | PARTICIPATES_IN
deriving DecidableEq, Repr

/-- Modelled from the spec: output relationship triple
`(from_node, to_node, type)`. -/
structure Relationship where
  from_node : String
  to_node : String
  type : RelType
deriving DecidableEq, Repr

/-- Modelled from the spec: the node sections of the output JSON
(spec section 6). -/
structure Nodes where
  documents : List DocumentRecord
  events : List EventNode
  dates : List DateRecord
  locations : List LocationRecord
  entities : List EntityRecord
  users : List UserRecord
deriving DecidableEq, Repr

/-- Modelled from the spec: the final output structure. -/
structure GraphOutput where
  nodes : Nodes
  relationships : List Relationship
deriving DecidableEq, Repr

/-- Modelled from the spec: reasons for fatal input errors (spec 7). -/
inductive InputReason where
  | emptyDocument
  | unsupportedFormat
  | extractionError
deriving DecidableEq, Repr

/-- Modelled from the spec: fatal pipeline errors.
`assemblyInvariantViolation` is distinct from input errors (spec 7). -/
inductive PipelineError where
  | inputError (r : InputReason)
  | assemblyInvariantViolation
deriving DecidableEq, Repr

/-! ### Fallback Pattern Extractor (spec 4.2)

Modelled from the spec: the deterministic pattern extractor of the missing
`document_processor_neo4j.py`.  It scans sentence-bounded windows for a
closed keyword vocabulary and fills date/location/participant fields,
leaving unresolved fields empty. -/

/-- Modelled from the spec: the closed vocabulary of event-indicator
keywords (spec 4.2). -/
def eventKeywords : List (List Char) :=
  ["meeting", "transaction", "announcement", "approval", "signing",
   "filing", "investigation", "ruling", "decision", "contract",
   "agreement", "merger"].map String.data

/-- Does `needle` occur at the head of `hay`? -/
def leadsWith : List Char → List Char → Bool
  | [], _ => true
  | _ :: _, [] => false
  | a :: as, b :: bs => a == b && leadsWith as bs

/-- Substring occurrence test. -/
def hasSub (needle : List Char) : List Char → Bool
  | [] => needle.isEmpty
  | c :: cs => leadsWith needle (c :: cs) || hasSub needle cs

/-- Sentence boundary characters. -/
def isSentenceEnd (c : Char) : Bool := c == '.' || c == '!' || c == '?'

/-- Modelled from the spec: the Text Normalizer segmentation (spec 4.1),
sentence-bounded passages in original order. -/
def segmentText (text : String) : List (List Char) :=
  splitSeq isSentenceEnd text.data []

/-- Words of a sentence: maximal non-blank chunks between whitespace. -/
def wordsOf (l : List Char) : List (List Char) :=
  (splitSeq isWS l []).filter (fun w => !w.isEmpty)

/-- Join words back with single spaces. -/
def joinWords (ws : List (List Char)) : String :=
  String.mk (List.intercalate [' '] ws)

/-- Is the word all ASCII digits (and non-empty)? -/
def digitsOnly (w : List Char) : Bool :=
  !w.isEmpty && w.all (fun c => '0' ≤ c && c ≤ '9')

/-- Month names recognized by the "Month D, YYYY" date format. -/
def monthNames : List (List Char) :=
  ["january", "february", "march", "april", "may", "june", "july",
   "august", "september", "october", "november", "december"].map String.data

/-- Index (1-based month number) of a lower-cased month word. -/
def monthIndex (w : List Char) : Option Nat :=
  (monthNames.findIdx? (fun mn => mn == w)).map (· + 1)

/-- Plausibility bounds for a month/day pair. -/
def validMD (m d : Nat) : Bool :=
  1 ≤ m && m ≤ 12 && 1 ≤ d && d ≤ 31

/-- Split a word at a given separator character. -/
def splitOnCh (c : Char) (w : List Char) : List (List Char) :=
  splitSeq (fun x => x == c) w []

/-- Parse a `YYYY-MM-DD` token into (year, month, day). -/
def parseISOToken (w : List Char) : Option (Nat × Nat × Nat) :=
  match splitOnCh '-' w with
  | [y, m, d] =>
    if digitsOnly y && digitsOnly m && digitsOnly d && y.length == 4
        && validMD (decVal m) (decVal d) then
      some (decVal y, decVal m, decVal d)
    else none
  | _ => none

/-- Parse a `D/M/YYYY` token into (year, month, day). -/
def parseSlashToken (w : List Char) : Option (Nat × Nat × Nat) :=
  match splitOnCh '/' w with
  | [d, m, y] =>
    if digitsOnly y && digitsOnly m && digitsOnly d && y.length == 4
        && validMD (decVal m) (decVal d) then
      some (decVal y, decVal m, decVal d)
    else none
  | _ => none

/-- Parse the three-word `Month D, YYYY` form, the day carrying a
trailing comma. -/
def parseMonthTriple (w1 w2 w3 : List Char) : Option (Nat × Nat × Nat) :=
  match monthIndex (w1.map lowerChar) with
  | none => none
  | some m =>
    let dayPart := w2.takeWhile (fun c => '0' ≤ c && c ≤ '9')
    if digitsOnly dayPart && w2 == dayPart ++ [','] && digitsOnly w3
        && w3.length == 4 && validMD m (decVal dayPart) then
      some (decVal w3, m, decVal dayPart)
    else none

/-- Modelled from the spec: scan a word list for the first absolute date
expression, returning its raw tokens (spec 4.2: relative expressions are
not resolved). -/
def findDateTokens : List (List Char) → Option (List (List Char))
  | [] => none
  | w :: rest =>
    if (parseISOToken w).isSome || (parseSlashToken w).isSome then
      some [w]
    else
      match rest with
      | w2 :: w3 :: _ =>
        if (parseMonthTriple w w2 w3).isSome then some [w, w2, w3]
        else findDateTokens rest
      | _ => findDateTokens rest

/-- Does the word start with an ASCII capital letter? -/
def isCapWord (w : List Char) : Bool :=
  match w with
  | c :: _ => 'A' ≤ c && c ≤ 'Z'
  | [] => false

/-- Location trigger words (spec 4.2: "in/at/near"). -/
def locTriggers : List (List Char) := ["in", "at", "near"].map String.data

/-- Modelled from the spec: first capitalized multi-word phrase following
a location trigger word (spec 4.2). -/
def findLocationTokens : List (List Char) → Option (List (List Char))
  | [] => none
  | w :: rest =>
    if locTriggers.contains (w.map lowerChar) then
      let caps := rest.takeWhile isCapWord
      if caps.length ≥ 2 then some caps else findLocationTokens rest
    else findLocationTokens rest

/-- Stopwords excluded from participant phrases (spec 4.2). -/
def stopwords : List (List Char) :=
  ["the", "a", "an", "on", "in", "at", "near", "with", "and", "to",
   "of", "by", "for"].map String.data

/-- A word that may belong to a participant phrase: capitalized and not a
stopword. -/
def participantWord (w : List Char) : Bool :=
  isCapWord w && !stopwords.contains (w.map lowerChar)

/-- Maximal runs of consecutive qualifying words. -/
def capRunsAux : List (List Char) → List (List Char) → List (List (List Char))
  | [], cur => if cur.isEmpty then [] else [cur.reverse]
  | w :: rest, cur =>
    if participantWord w then capRunsAux rest (w :: cur)
    else if cur.isEmpty then capRunsAux rest []
    else cur.reverse :: capRunsAux rest []

/-- Modelled from the spec: participant phrases of a sentence, excluding
words already claimed as location; only multi-word capitalized runs
qualify (spec 4.2). -/
def findParticipantPhrases (ws : List (List Char)) (locWords : List (List Char)) :
    List (List (List Char)) :=
  (capRunsAux (ws.filter (fun w => !locWords.contains w)) []).filter
    (fun run => run.length ≥ 2)

/-- Join phrases into a raw participant string separated by commas. -/
def joinPhrases (phrases : List (List (List Char))) : String :=
  String.intercalate ", " (phrases.map joinWords)

/-- Modelled from the spec: one CandidateEvent per keyword-bearing
sentence; overlapping keyword hits in one sentence collapse into a single
candidate; unresolved fields degrade to empty (spec 4.2). -/
def candidateOfSentence (s : List Char) : Option CandidateEvent :=
  let low := s.map lowerChar
  match eventKeywords.find? (fun k => hasSub k low) with
  | none => none
  | some kw =>
    let ws := wordsOf s
    let locWords := (findLocationTokens ws).getD []
    some
      { title := String.mk kw
        summary := String.mk (trimChars s)
        rawDate := ((findDateTokens ws).map joinWords).getD ""
        rawLocation := ((findLocationTokens ws).map joinWords).getD ""
        rawParticipants := joinPhrases (findParticipantPhrases ws locWords)
        provenance := String.mk s }

/-- Modelled from the spec: the deterministic Fallback Pattern Extractor,
a pure function from text to a (possibly empty) candidate list (spec 4.2).
It makes zero external calls and cannot fail. -/
def fallbackPatternExtract (text : String) : List CandidateEvent :=
  (segmentText text).filterMap candidateOfSentence

/-! ### Entity/Location/Date Normalizer and Identifier Assigner
(spec 4.4 and 4.5) -/

/-- Modelled from the spec: canonicalization for the dedup registries,
trim plus case-fold (spec 4.4, glossary "Dedup registry"). -/
def canon (s : String) : String :=
  String.mk ((trimChars s.data).map lowerChar)

/-- Modelled from the spec: a per-run dedup registry mapping canonical
keys to assigned ids, together with the per-type id counter starting
at 1 (spec 4.5, design note on run-owned counters). -/
structure Registry where
  pairs : List (String × String)
  nextId : Nat
deriving DecidableEq, Repr

def Registry.init : Registry := ⟨[], 1⟩

/-- Look an entry up by canonical key. -/
def lookupReg (reg : Registry) (key : String) : Option String :=
  (reg.pairs.find? (fun p => p.1 == key)).map (·.2)

/-- Pad a month or day number to two digits. -/
def pad2 (n : Nat) : String :=
  if n < 10 then "0" ++ natToStr n else natToStr n

/-- Modelled from the spec: resolved dates normalize to ISO-8601
midnight UTC (spec 4.4). -/
def isoOf (y m d : Nat) : String :=
  natToStr y ++ "-" ++ pad2 m ++ "-" ++ pad2 d ++ "T00:00:00Z"

/-- Parse one date-expression token group into (year, month, day). -/
def parseDateWords : List (List Char) → Option (Nat × Nat × Nat)
  | [w] =>
    match parseISOToken w with
    | some ymd => some ymd
    | none => parseSlashToken w
  | [w1, w2, w3] => parseMonthTriple w1 w2 w3
  | _ => none

/-- Modelled from the spec: the prioritized-format date parser; an
unparseable raw string yields `none` and the DateRecord and OCCURRED_ON
edge are omitted, non-fatally (spec 4.4). -/
def parseDate (raw : String) : Option String :=
  match findDateTokens (wordsOf raw.data) with
  | none => none
  | some toks =>
    (parseDateWords toks).map (fun ymd => isoOf ymd.1 ymd.2.1 ymd.2.2)

/-- Modelled from the spec: split a raw participant string on
conjunctions and commas into name candidates (spec 4.4). -/
def participantNames (raw : String) : List String :=
  ((splitSeq (fun c => c == ',') raw.data []).flatMap
      (fun chunk =>
        splitSeq (fun w => w.map lowerChar == "and".data || w == "&".data)
          (wordsOf chunk) [])).filterMap
    (fun ws => if ws.isEmpty then none else some (joinWords ws))

/-- Modelled from the spec: the per-event field association handed to the
Graph Assembler (spec 4.6 input). -/
structure EventAssoc where
  eventId : String
  dateVal : Option String
  locId : Option String
  entityIds : List String
deriving DecidableEq, Repr

/-- Modelled from the spec: the transient per-run normalization state:
finalized node lists, dedup registries, per-event field associations. -/
structure NormState where
  events : List EventNode
  nextEventId : Nat
  dates : List DateRecord
  locReg : Registry
  locations : List LocationRecord
  entReg : Registry
  entities : List EntityRecord
  assocs : List EventAssoc
deriving DecidableEq, Repr

def NormState.init : NormState :=
  ⟨[], 1, [], Registry.init, [], Registry.init, [], []⟩

/-- Modelled from the spec: one DateRecord per distinct calendar date per
run, shared by all events on that date (spec section 3). -/
def registerDate (st : NormState) (iso : String) : NormState :=
  if st.dates.any (fun d => d.date == iso) then st
  else { st with dates := st.dates ++ [⟨iso⟩] }

/-- Modelled from the spec: create or reuse one LocationRecord per
distinct case-insensitively matched address (spec 4.4). -/
def registerLocation (st : NormState) (raw : String) : NormState × String :=
  let key := canon raw
  match lookupReg st.locReg key with
  | some id => (st, id)
  | none =>
    let id := mkId "loc" st.locReg.nextId
    ({ st with
        locReg := ⟨st.locReg.pairs ++ [(key, id)], st.locReg.nextId + 1⟩
        locations := st.locations ++ [⟨id, String.mk (trimChars raw.data)⟩] },
     id)

/-- Modelled from the spec: create or reuse one EntityRecord per distinct
case-folded, trimmed name (spec 4.4). -/
def registerEntity (st : NormState) (raw : String) : NormState × String :=
  let key := canon raw
  match lookupReg st.entReg key with
  | some id => (st, id)
  | none =>
    let id := mkId "entity" st.entReg.nextId
    ({ st with
        entReg := ⟨st.entReg.pairs ++ [(key, id)], st.entReg.nextId + 1⟩
        entities := st.entities ++ [⟨id, String.mk (trimChars raw.data)⟩] },
     id)

/-- One participant registration step: register the name and record the
assigned id, deduplicating the per-event id list (spec 4.4). -/
def regPartStep (acc : NormState × List String) (nm : String) :
    NormState × List String :=
  let r := registerEntity acc.1 nm
  (r.1, if acc.2.contains r.2 then acc.2 else acc.2 ++ [r.2])

/-- Register every participant name of one event (spec 4.4). -/
def registerParticipants (st : NormState) (names : List String) :
    NormState × List String :=
  names.foldl regPartStep (st, [])

/-- Modelled from the spec: normalize one CandidateEvent: assign the
event id, resolve date/location/participants, record the association
(spec 4.4, 4.5). -/
def processCandidate (st : NormState) (c : CandidateEvent) : NormState :=
  let eid := mkId "event" st.nextEventId
  let st1 := { st with
    events := st.events ++ [⟨eid, c.title, c.summary⟩]
    nextEventId := st.nextEventId + 1 }
  let dOpt := parseDate c.rawDate
  let st2 := match dOpt with
    | some iso => registerDate st1 iso
    | none => st1
  let locStep :=
    if (trimChars c.rawLocation.data).isEmpty then (st2, none)
    else
      let r := registerLocation st2 c.rawLocation
      (r.1, some r.2)
  let entStep := registerParticipants locStep.1 (participantNames c.rawParticipants)
  let st3 := entStep.1
  { st3 with
    assocs := st3.assocs ++ [⟨eid, dOpt, locStep.2, entStep.2⟩] }

/-- Modelled from the spec: normalize all candidates in order, starting
from the fresh per-run state. -/
def normalizeAll (cands : List CandidateEvent) : NormState :=
  cands.foldl processCandidate NormState.init

/-! ### Graph Assembler (spec 4.6) and Pipeline Orchestrator (spec 4.7) -/

/-- Character-code sum used as the content-stable hash of a filename. -/
def sumChars (s : String) : Nat :=
  s.data.foldl (fun a c => a + c.toNat) 0

/-- Modelled from the spec: DocumentRecord ids derive a content-stable
suffix from the filename so repeated runs on the same file reproduce the
same id (spec 4.5). -/
def docIdOf (filename : String) : String :=
  "doc_" ++ natToStr (sumChars filename)

/-- Modelled from the spec: the User placeholder node with a
content-stable id suffix (spec 4.5, README output example). -/
def theUser : UserRecord :=
  ⟨"user_" ++ natToStr (sumChars "journalist@example.com"),
   "journalist@example.com", "System User", "placeholder"⟩

/-- Modelled from the spec: per event, in fixed order, one MENTIONS,
OCCURRED_ON iff a date resolved, OCCURRED_AT iff a location resolved, one
PARTICIPATES_IN per resolved entity (spec 4.6).  OCCURRED_ON endpoints
are keyed by the date string. -/
def relsOfAssoc (docId : String) (a : EventAssoc) : List Relationship :=
  [⟨docId, a.eventId, RelType.MENTIONS⟩]
    ++ (match a.dateVal with
        | some d => [⟨a.eventId, d, RelType.OCCURRED_ON⟩]
        | none => [])
    ++ (match a.locId with
        | some l => [⟨a.eventId, l, RelType.OCCURRED_AT⟩]
        | none => [])
    ++ a.entityIds.map (fun eid => ⟨eid, a.eventId, RelType.PARTICIPATES_IN⟩)

/-- All ids of emitted nodes (DateRecords carry no id). -/
def emittedIds (n : Nodes) : List String :=
  n.documents.map (·.id) ++ n.events.map (·.id) ++ n.locations.map (·.id)
    ++ n.entities.map (·.id) ++ n.users.map (·.id)

/-- Modelled from the spec: an endpoint resolves to an emitted node id or,
for DateRecord endpoints, to an emitted date value (spec section 3). -/
def endpointOk (n : Nodes) (s : String) : Bool :=
  (emittedIds n).contains s || (n.dates.map (·.date)).contains s

/-- Modelled from the spec: the Graph Assembler's final verification that
every relationship endpoint exists among emitted nodes/dates (spec 4.6). -/
def checkEndpoints (n : Nodes) (rels : List Relationship) : Bool :=
  rels.all (fun r => endpointOk n r.from_node && endpointOk n r.to_node)

/-- Modelled from the spec: the Graph Assembler; on an endpoint-resolution
violation it aborts with the fatal `AssemblyInvariantViolation` instead of
emitting output (spec 4.6). -/
def assembleGraph (n : Nodes) (rels : List Relationship) :
    Except PipelineError GraphOutput :=
  if checkEndpoints n rels then Except.ok ⟨n, rels⟩
  else Except.error PipelineError.assemblyInvariantViolation

/-- Collect the node sections from the document record and the
normalization state. -/
def nodesOf (doc : DocumentRecord) (st : NormState) : Nodes :=
  ⟨[doc], st.events, st.dates, st.locations, st.entities, [theUser]⟩

/-- Modelled from the spec: AI Adapter outcomes; any failure (timeout,
malformed response, auth error, rate limit, missing credential) signals
`AIUnavailable` (spec 4.3). -/
inductive ExtractError where
  | aiUnavailable
deriving DecidableEq, Repr

/-- Modelled from the spec: the run configuration for the AI Adapter;
`aiResponse = none` stands for any `AIUnavailable` condition. -/
structure Config where
  aiEnabled : Bool
  aiResponse : Option (List CandidateEvent)
deriving DecidableEq, Repr

/-- Modelled from the spec: schema validation of AI records; a record
missing a title is dropped with a warning, not a failure (spec 4.3). -/
def validateAI (evs : List CandidateEvent) : List CandidateEvent :=
  evs.filter (fun e => !(e.title == ""))

/-- Modelled from the spec: the AI Extractor Adapter as a fallible
strategy (spec 4.3). -/
def aiExtract (cfg : Config) : Except ExtractError (List CandidateEvent) :=
  match cfg.aiResponse with
  | some evs => Except.ok (validateAI evs)
  | none => Except.error ExtractError.aiUnavailable

/-- Modelled from the spec: the fallback strategy under the common
fallible-extractor interface; it always succeeds (spec 4.2). -/
def fallbackExtract (text : String) : Except ExtractError (List CandidateEvent) :=
  Except.ok (fallbackPatternExtract text)

/-- Modelled from the spec: strategy selection; on `AIUnavailable` the
run switches AI to Fallback, and the two outputs are never merged
(spec 4.3, 4.7). -/
def extractStage (cfg : Config) (text : String) : List CandidateEvent :=
  if cfg.aiEnabled then
    match aiExtract cfg with
    | Except.ok evs => evs
    | Except.error ExtractError.aiUnavailable => fallbackPatternExtract text
  else fallbackPatternExtract text

/-- Modelled from the spec: the Pipeline Orchestrator for one document:
Text Normalizer emptiness check, strategy selection, normalization,
assembly (spec 4.7). -/
def runPipeline (cfg : Config) (filename text : String) :
    Except PipelineError GraphOutput :=
  if (trimChars text.data).isEmpty then
    Except.error (PipelineError.inputError InputReason.emptyDocument)
  else
    let cands := extractStage cfg text
    let st := normalizeAll cands
    let doc : DocumentRecord := ⟨docIdOf filename, filename⟩
    assembleGraph (nodesOf doc st) (st.assocs.flatMap (relsOfAssoc doc.id))

/-- Modelled from the spec: an extraction strategy marker. -/
inductive Strategy where
  | ai
  | fallback
deriving DecidableEq, Repr

/-- Modelled from the spec: the Orchestrator state machine per document
(spec 4.7). -/
inductive OState where
  | init
  | textExtracted
  | extracting (s : Strategy)
  | normalizing
  | assembling
  | done
  | failed (e : PipelineError)
deriving DecidableEq, Repr

/-- Modelled from the spec: the Orchestrator transition relation:
`Init → TextExtracted → Extracting{AI|Fallback} → Normalizing →
Assembling → Done`, with `Extracting` transitioning AI→Fallback on
`AIUnavailable` and any state able to fail on an unrecoverable error
(spec 4.7). -/
inductive Step : OState → OState → Prop
  | textExtract : Step OState.init OState.textExtracted
  | chooseAI : Step OState.textExtracted (OState.extracting Strategy.ai)
  | chooseFallback : Step OState.textExtracted (OState.extracting Strategy.fallback)
  | aiUnavailable :
      Step (OState.extracting Strategy.ai) (OState.extracting Strategy.fallback)
  | extracted (s : Strategy) : Step (OState.extracting s) OState.normalizing
  | normalized : Step OState.normalizing OState.assembling
  | assembled : Step OState.assembling OState.done
  | fail (s : OState) (e : PipelineError) : Step s (OState.failed e)

/-! ### Timeline component (src/app/src/components/Timeline.tsx)

These definitions embed the TypeScript source directly: `filteredEvents`
(lines 39-69) and `toggleEventExpansion` (lines 75-83).  Event dates are
epoch milliseconds, the value of `new Date(event.date).getTime()`. -/

/-- An entity reference carried by an event DTO (id and name). -/
structure EntityRef where
  id : String
  name : String
deriving DecidableEq, Repr

/-- The event DTO rendered by the Timeline component. -/
structure EventDto where
  id : String
  title : String
  summary : String
  date : Int
  location : Option String
  entities : List EntityRef
deriving DecidableEq, Repr

/-- The `dateRange` field of `TimelineFilter`; `stop` embeds the `end`
field of the TypeScript interface (a Lean keyword). -/
structure DateRange where
  start : Option Int
  stop : Option Int
deriving DecidableEq, Repr

/-- The `TimelineFilter` interface of `src/app/src/types/investigation.ts`:
entity ids and a date range (the category/priority filters are commented
out in the component). -/
structure TimelineFilter where
  entities : List String
  dateRange : DateRange
deriving DecidableEq, Repr

/-- The filter predicate of `filteredEvents` (Timeline.tsx lines 40-68):
an event is dropped when the entity filter is non-empty and no event
entity matches, when its date is before `dateRange.start`, or when its
date is after `dateRange.end`. -/
def eventPasses (f : TimelineFilter) (e : EventDto) : Bool :=
  if f.entities.length > 0
      && !(e.entities.any (fun en => f.entities.contains en.id)) then
    false
  else if (match f.dateRange.start with
           | some s => decide (e.date < s)
           | none => false) then
    false
  else if (match f.dateRange.stop with
           | some t => decide (t < e.date)
           | none => false) then
    false
  else true

/-- The comparator of the final `.sort` (Timeline.tsx line 69): ascending
date order. -/
def byDate (a b : EventDto) : Prop := a.date ≤ b.date

instance : DecidableRel byDate := fun a b => Int.decLe a.date b.date

instance : IsTotal EventDto byDate := ⟨fun a b => Int.le_total a.date b.date⟩

instance : IsTrans EventDto byDate := ⟨fun _ _ _ h1 h2 => le_trans h1 h2⟩

/-- `filteredEvents` of the Timeline component (Timeline.tsx lines 39-69):
filter by entities and date range, then sort ascending by date. -/
def filteredEvents (events : List EventDto) (f : TimelineFilter) : List EventDto :=
  List.insertionSort byDate (events.filter (eventPasses f))

/-- `toggleEventExpansion` of the Timeline component (Timeline.tsx lines
75-83): delete the id when present, insert it when absent. -/
def toggleEventExpansion (expanded : Finset String) (eventId : String) :
    Finset String :=
  if eventId ∈ expanded then expanded.erase eventId
  else insert eventId expanded

/-! ### Invariant of the normalization state and concrete run fixtures -/

/-- The structural invariant maintained by the normalizer and the
Identifier Assigner over a run (spec 4.4, 4.5, section 3). -/
structure StateInv (st : NormState) : Prop where
  datesNodup : (st.dates.map DateRecord.date).Nodup
  assocDates : ∀ a ∈ st.assocs, ∀ d, a.dateVal = some d →
    d ∈ st.dates.map DateRecord.date
  eventIds : st.events.map EventNode.id
    = (List.range' 1 st.events.length).map (mkId "event")
  eventNext : st.nextEventId = st.events.length + 1
  locIds : st.locations.map LocationRecord.id
    = (List.range' 1 st.locations.length).map (mkId "loc")
  locNext : st.locReg.nextId = st.locations.length + 1
  entIds : st.entities.map EntityRecord.id
    = (List.range' 1 st.entities.length).map (mkId "entity")
  entNext : st.entReg.nextId = st.entities.length + 1

/-- Run configuration with AI disabled, for concrete runs. -/
def cfgW : Config := ⟨false, none⟩

/-- A concrete input text exercising date, location and participants. -/
def textW : String :=
  "The board meeting was held on 2024-01-15 in Paris City with John Doe and Jane Smith."

/-- Empty output used as a fallback default. -/
def defaultOut : GraphOutput := ⟨⟨[], [], [], [], [], []⟩, []⟩

/-- The concrete graph produced by running the pipeline on `textW`. -/
def outW : GraphOutput :=
  (runPipeline cfgW "report.pdf" textW).toOption.getD defaultOut

/-- A concrete input whose single candidate has no resolvable date. -/
def tW3 : String := "A merger with John Doe"

/-- The candidate extracted from `tW3`. -/
def evW : CandidateEvent :=
  (fallbackPatternExtract tW3).headD ⟨"", "", "", "", "", ""⟩

/-! ## Theorems -/

/-! ### Decimal rendering is injective -/

theorem decVal_append_digit (l : List Char) (c : Char) :
    decVal (l ++ [c]) = 10 * decVal l + (c.toNat - 48) := by
  simp [decVal, List.foldl_append]

theorem digitCh_toNat (d : Nat) : (digitCh d).toNat = 48 + d % 10 := by
  have h : d % 10 < 10 := Nat.mod_lt _ (by decide)
  unfold digitCh
  set k := d % 10 with hk
  interval_cases k <;> decide

theorem decVal_toDec : ∀ fuel n, n < fuel → decVal (toDec fuel n) = n := by
  intro fuel
  induction fuel with
  | zero => intro n h; omega
  | succ fuel ih =>
    intro n h
    by_cases h10 : n < 10
    · simp only [toDec, if_pos h10, decVal, List.foldl, digitCh_toNat]
      omega
    · have hdiv : n / 10 < n := Nat.div_lt_self (by omega) (by omega)
      simp only [toDec, if_neg h10, decVal_append_digit, digitCh_toNat,
        ih (n / 10) (by omega)]
      omega

theorem natToStr_inj {m n : Nat} (h : natToStr m = natToStr n) : m = n := by
  have hd : toDec (m + 1) m = toDec (n + 1) n := congrArg String.data h
  have := congrArg decVal hd
  rwa [decVal_toDec (m + 1) m (by omega), decVal_toDec (n + 1) n (by omega)] at this

theorem mkId_inj (ty : String) {m n : Nat} (h : mkId ty m = mkId ty n) : m = n := by
  have hd := congrArg String.data h
  simp only [mkId, String.data_append] at hd
  have hm : (natToStr m).data = (natToStr n).data := by
    have h2 : ty.data ++ ('_' :: (natToStr m).data)
        = ty.data ++ ('_' :: (natToStr n).data) := by
      simpa [List.append_assoc] using hd
    exact (List.cons.inj (List.append_cancel_left h2)).2
  exact natToStr_inj (String.ext hm)

theorem mkId_injective (ty : String) : Function.Injective (mkId ty) :=
  fun _ _ h => mkId_inj ty h

/-! ### Date registry lemmas -/

theorem registerDate_frame (st : NormState) (iso : String) :
    (registerDate st iso).events = st.events
    ∧ (registerDate st iso).nextEventId = st.nextEventId
    ∧ (registerDate st iso).locations = st.locations
    ∧ (registerDate st iso).locReg = st.locReg
    ∧ (registerDate st iso).entities = st.entities
    ∧ (registerDate st iso).entReg = st.entReg
    ∧ (registerDate st iso).assocs = st.assocs := by
  unfold registerDate
  split <;> simp

theorem registerDate_nodup (st : NormState) (iso : String)
    (h : (st.dates.map DateRecord.date).Nodup) :
    ((registerDate st iso).dates.map DateRecord.date).Nodup := by
  unfold registerDate
  split
  · exact h
  · rename_i hany
    have hni : iso ∉ st.dates.map DateRecord.date := by
      intro hmem
      obtain ⟨d, hd, hval⟩ := List.mem_map.mp hmem
      have : st.dates.any (fun d => d.date == iso) = true :=
        List.any_eq_true.mpr ⟨d, hd, by simp [hval]⟩
      simp_all
    simp [List.nodup_append, h, hni]

theorem registerDate_mem (st : NormState) (iso : String) :
    iso ∈ (registerDate st iso).dates.map DateRecord.date := by
  unfold registerDate
  split
  · rename_i hany
    obtain ⟨d, hd, he⟩ := List.any_eq_true.mp hany
    exact List.mem_map.mpr ⟨d, hd, by simpa using he⟩
  · simp

theorem registerDate_mono (st : NormState) (iso x : String)
    (h : x ∈ st.dates.map DateRecord.date) :
    x ∈ (registerDate st iso).dates.map DateRecord.date := by
  unfold registerDate
  split <;> simp_all

/-! ### Location and entity registry lemmas -/

theorem registerLocation_frame (st : NormState) (raw : String) :
    (registerLocation st raw).1.events = st.events
    ∧ (registerLocation st raw).1.nextEventId = st.nextEventId
    ∧ (registerLocation st raw).1.dates = st.dates
    ∧ (registerLocation st raw).1.entities = st.entities
    ∧ (registerLocation st raw).1.entReg = st.entReg
    ∧ (registerLocation st raw).1.assocs = st.assocs := by
  cases h : lookupReg st.locReg (canon raw) <;> simp [registerLocation, h]

theorem registerLocation_ids (st : NormState) (raw : String)
    (hn : st.locReg.nextId = st.locations.length + 1)
    (hi : st.locations.map LocationRecord.id
      = (List.range' 1 st.locations.length).map (mkId "loc")) :
    (registerLocation st raw).1.locReg.nextId
      = (registerLocation st raw).1.locations.length + 1
    ∧ (registerLocation st raw).1.locations.map LocationRecord.id
      = (List.range' 1 (registerLocation st raw).1.locations.length).map (mkId "loc") := by
  cases h : lookupReg st.locReg (canon raw)
  · constructor
    · simp [registerLocation, h, hn]
    · simp only [registerLocation, h, List.map_append, List.length_append,
        List.map_cons, List.map_nil, List.length_cons, List.length_nil]
      rw [hi, hn, List.range'_1_concat]
      simp [Nat.add_comm]
  · simpa [registerLocation, h] using ⟨hn, hi⟩

theorem registerEntity_frame (st : NormState) (raw : String) :
    (registerEntity st raw).1.events = st.events
    ∧ (registerEntity st raw).1.nextEventId = st.nextEventId
    ∧ (registerEntity st raw).1.dates = st.dates
    ∧ (registerEntity st raw).1.locations = st.locations
    ∧ (registerEntity st raw).1.locReg = st.locReg
    ∧ (registerEntity st raw).1.assocs = st.assocs := by
  cases h : lookupReg st.entReg (canon raw) <;> simp [registerEntity, h]

theorem registerEntity_ids (st : NormState) (raw : String)
    (hn : st.entReg.nextId = st.entities.length + 1)
    (hi : st.entities.map EntityRecord.id
      = (List.range' 1 st.entities.length).map (mkId "entity")) :
    (registerEntity st raw).1.entReg.nextId
      = (registerEntity st raw).1.entities.length + 1
    ∧ (registerEntity st raw).1.entities.map EntityRecord.id
      = (List.range' 1 (registerEntity st raw).1.entities.length).map (mkId "entity") := by
  cases h : lookupReg st.entReg (canon raw)
  · constructor
    · simp [registerEntity, h, hn]
    · simp only [registerEntity, h, List.map_append, List.length_append,
        List.map_cons, List.map_nil, List.length_cons, List.length_nil]
      rw [hi, hn, List.range'_1_concat]
      simp [Nat.add_comm]
  · simpa [registerEntity, h] using ⟨hn, hi⟩

/-! ### Participant fold lemmas -/

theorem foldl_regPartStep_spec :
    ∀ (names : List String) (st : NormState) (acc : List String),
      (names.foldl regPartStep (st, acc)).1.events = st.events
      ∧ (names.foldl regPartStep (st, acc)).1.nextEventId = st.nextEventId
      ∧ (names.foldl regPartStep (st, acc)).1.dates = st.dates
      ∧ (names.foldl regPartStep (st, acc)).1.locations = st.locations
      ∧ (names.foldl regPartStep (st, acc)).1.locReg = st.locReg
      ∧ (names.foldl regPartStep (st, acc)).1.assocs = st.assocs
      ∧ (st.entReg.nextId = st.entities.length + 1 →
          st.entities.map EntityRecord.id
            = (List.range' 1 st.entities.length).map (mkId "entity") →
          (names.foldl regPartStep (st, acc)).1.entReg.nextId
            = (names.foldl regPartStep (st, acc)).1.entities.length + 1
          ∧ (names.foldl regPartStep (st, acc)).1.entities.map EntityRecord.id
            = (List.range' 1 (names.foldl regPartStep (st, acc)).1.entities.length).map
                (mkId "entity")) := by
  intro names
  induction names with
  | nil => intro st acc; exact ⟨rfl, rfl, rfl, rfl, rfl, rfl, fun hn hi => ⟨hn, hi⟩⟩
  | cons nm rest ih =>
    intro st acc
    have hstep : (regPartStep (st, acc) nm).1 = (registerEntity st nm).1 := rfl
    have hfr := registerEntity_frame st nm
    obtain ⟨h1, h2, h3, h4, h5, h6⟩ := hfr
    have hrec := ih (regPartStep (st, acc) nm).1 (regPartStep (st, acc) nm).2
    rw [List.foldl_cons]
    have hpair : rest.foldl regPartStep (regPartStep (st, acc) nm)
        = rest.foldl regPartStep ((regPartStep (st, acc) nm).1, (regPartStep (st, acc) nm).2) := by
      rfl
    rw [hpair]
    obtain ⟨g1, g2, g3, g4, g5, g6, g7⟩ := hrec
    rw [hstep] at g1 g2 g3 g4 g5 g6 g7
    refine ⟨g1.trans h1, g2.trans h2, g3.trans h3, g4.trans h4, g5.trans h5,
      g6.trans h6, ?_⟩
    intro hn hi
    have hids := registerEntity_ids st nm hn hi
    exact g7 hids.1 hids.2

/-! ### Invariant preservation through normalization -/

theorem eventStep_inv (st : NormState) (t s : String) (h : StateInv st) :
    StateInv { st with
      events := st.events ++ [⟨mkId "event" st.nextEventId, t, s⟩]
      nextEventId := st.nextEventId + 1 } := by
  obtain ⟨d1, d2, e1, e2, l1, l2, n1, n2⟩ := h
  refine ⟨d1, d2, ?_, ?_, l1, l2, n1, n2⟩
  · simp only [List.map_append, List.length_append, List.map_cons, List.map_nil,
      List.length_cons, List.length_nil]
    rw [e1, e2, List.range'_1_concat]
    simp [Nat.add_comm]
  · simp [e2]

theorem dateStep_inv (st : NormState) (iso : String) (h : StateInv st) :
    StateInv (registerDate st iso) := by
  obtain ⟨f1, f2, f3, f4, f5, f6, f7⟩ := registerDate_frame st iso
  obtain ⟨d1, d2, e1, e2, l1, l2, n1, n2⟩ := h
  refine ⟨registerDate_nodup st iso d1, ?_, ?_, ?_, ?_, ?_, ?_, ?_⟩
  · rw [f7]
    intro a ha d hd
    exact registerDate_mono st iso d (d2 a ha d hd)
  · rw [f1]; exact e1
  · rw [f2, f1]; exact e2
  · rw [f3]; exact l1
  · rw [f4, f3]; exact l2
  · rw [f5]; exact n1
  · rw [f6, f5]; exact n2

theorem locStep_inv (st : NormState) (raw : String) (h : StateInv st) :
    StateInv (registerLocation st raw).1
    ∧ (registerLocation st raw).1.dates = st.dates
    ∧ (registerLocation st raw).1.assocs = st.assocs := by
  obtain ⟨f1, f2, f3, f4, f5, f6⟩ := registerLocation_frame st raw
  obtain ⟨d1, d2, e1, e2, l1, l2, n1, n2⟩ := h
  obtain ⟨i1, i2⟩ := registerLocation_ids st raw l2 l1
  refine ⟨⟨?_, ?_, ?_, ?_, i2, i1, ?_, ?_⟩, f3, f6⟩
  · rw [f3]; exact d1
  · rw [f6, f3]; exact d2
  · rw [f1]; exact e1
  · rw [f2, f1]; exact e2
  · rw [f4]; exact n1
  · rw [f5, f4]; exact n2

theorem partStep_inv (st : NormState) (names : List String) (h : StateInv st) :
    StateInv (registerParticipants st names).1
    ∧ (registerParticipants st names).1.dates = st.dates
    ∧ (registerParticipants st names).1.assocs = st.assocs := by
  obtain ⟨d1, d2, e1, e2, l1, l2, n1, n2⟩ := h
  obtain ⟨g1, g2, g3, g4, g5, g6, g7⟩ := foldl_regPartStep_spec names st []
  obtain ⟨i1, i2⟩ := g7 n2 n1
  refine ⟨⟨?_, ?_, ?_, ?_, ?_, ?_, i2, i1⟩, g3, g6⟩
  · rw [show (registerParticipants st names).1.dates = st.dates from g3]; exact d1
  · rw [show (registerParticipants st names).1.assocs = st.assocs from g6,
      show (registerParticipants st names).1.dates = st.dates from g3]
    exact d2
  · rw [show (registerParticipants st names).1.events = st.events from g1]; exact e1
  · rw [show (registerParticipants st names).1.nextEventId = st.nextEventId from g2,
      show (registerParticipants st names).1.events = st.events from g1]
    exact e2
  · rw [show (registerParticipants st names).1.locations = st.locations from g4]; exact l1
  · rw [show (registerParticipants st names).1.locReg = st.locReg from g5,
      show (registerParticipants st names).1.locations = st.locations from g4]
    exact l2

theorem assocStep_inv (st : NormState) (a : EventAssoc) (h : StateInv st)
    (hdv : ∀ d, a.dateVal = some d → d ∈ st.dates.map DateRecord.date) :
    StateInv { st with assocs := st.assocs ++ [a] } := by
  obtain ⟨d1, d2, e1, e2, l1, l2, n1, n2⟩ := h
  refine ⟨d1, ?_, e1, e2, l1, l2, n1, n2⟩
  intro b hb d hd
  rcases List.mem_append.mp hb with hb | hb
  · exact d2 b hb d hd
  · have : b = a := by simpa using hb
    subst this
    exact hdv d hd

theorem processCandidate_inv (st : NormState) (c : CandidateEvent)
    (h : StateInv st) : StateInv (processCandidate st c) := by
  have h1 := eventStep_inv st c.title c.summary h
  cases hd : parseDate c.rawDate with
  | none =>
    by_cases hloc : (trimChars c.rawLocation.data).isEmpty = true
    · have h3 := partStep_inv _ (participantNames c.rawParticipants) h1
      simp only [processCandidate, hd, hloc, if_pos, Bool.true_eq]
      exact assocStep_inv _ _ h3.1 (fun d hdv => by simp at hdv)
    · have h2 := locStep_inv _ c.rawLocation h1
      have h3 := partStep_inv _ (participantNames c.rawParticipants) h2.1
      simp only [processCandidate, hd, hloc]
      simp only [Bool.false_eq_true, if_false]
      exact assocStep_inv _ _ h3.1 (fun d hdv => by simp at hdv)
  | some iso =>
    have h2 := dateStep_inv _ iso h1
    have hmem := registerDate_mem
      { st with
        events := st.events ++ [⟨mkId "event" st.nextEventId, c.title, c.summary⟩]
        nextEventId := st.nextEventId + 1 } iso
    by_cases hloc : (trimChars c.rawLocation.data).isEmpty = true
    · have h3 := partStep_inv _ (participantNames c.rawParticipants) h2
      simp only [processCandidate, hd, hloc, if_pos, Bool.true_eq]
      refine assocStep_inv _ _ h3.1 (fun d hdv => ?_)
      have : iso = d := by simpa using hdv
      subst this
      rw [h3.2.1]
      exact hmem
    · have h2' := locStep_inv _ c.rawLocation h2
      have h3 := partStep_inv _ (participantNames c.rawParticipants) h2'.1
      simp only [processCandidate, hd, hloc]
      simp only [Bool.false_eq_true, if_false]
      refine assocStep_inv _ _ h3.1 (fun d hdv => ?_)
      have : iso = d := by simpa using hdv
      subst this
      rw [h3.2.1, h2'.2.1]
      exact hmem

theorem stateInv_init : StateInv NormState.init := by
  refine ⟨?_, ?_, ?_, ?_, ?_, ?_, ?_, ?_⟩ <;> simp [NormState.init, Registry.init]

theorem stateInv_foldl (cands : List CandidateEvent) :
    ∀ st, StateInv st → StateInv (cands.foldl processCandidate st) := by
  induction cands with
  | nil => intro st h; exact h
  | cons c rest ih =>
    intro st h
    rw [List.foldl_cons]
    exact ih _ (processCandidate_inv st c h)

theorem stateInv_normalizeAll (cands : List CandidateEvent) :
    StateInv (normalizeAll cands) :=
  stateInv_foldl cands NormState.init stateInv_init

/-! ### Pipeline output shape -/

theorem runPipeline_ok (cfg : Config) (fn text : String) (out : GraphOutput)
    (h : runPipeline cfg fn text = Except.ok out) :
    out = ⟨nodesOf ⟨docIdOf fn, fn⟩ (normalizeAll (extractStage cfg text)),
           (normalizeAll (extractStage cfg text)).assocs.flatMap
             (relsOfAssoc (docIdOf fn))⟩
    ∧ checkEndpoints out.nodes out.relationships = true := by
  unfold runPipeline at h
  split at h
  · exact absurd h (by simp)
  · unfold assembleGraph at h
    simp only [] at h
    split at h
    · rename_i hchk
      obtain rfl := (Except.ok.injEq _ _).mp h.symm
      exact ⟨rfl, hchk⟩
    · exact absurd h (by simp)

theorem relsOfAssoc_occurred_on (docId : String) (a : EventAssoc)
    (r : Relationship) (hr : r ∈ relsOfAssoc docId a)
    (ht : r.type = RelType.OCCURRED_ON) :
    ∃ d, a.dateVal = some d ∧ r.to_node = d := by
  unfold relsOfAssoc at hr
  rcases hdv : a.dateVal with _ | d <;> rcases hl : a.locId with _ | l <;>
    rw [hdv, hl] at hr <;>
    simp only [List.mem_append, List.mem_singleton, List.mem_map,
      List.mem_cons, List.not_mem_nil, or_false, false_or] at hr
  · rcases hr with rfl | ⟨eid, _, rfl⟩ <;> simp_all
  · rcases hr with (rfl | rfl) | ⟨eid, _, rfl⟩ <;> simp_all
  · rcases hr with (rfl | rfl) | ⟨eid, _, rfl⟩ <;> first
      | exact ⟨d, rfl, rfl⟩
      | simp_all
  · rcases hr with ((rfl | rfl) | rfl) | ⟨eid, _, rfl⟩ <;> first
      | exact ⟨d, rfl, rfl⟩
      | simp_all

/-- C1: for every run that returns an output graph, every relationship's
endpoints resolve to emitted nodes (with OCCURRED_ON endpoints keyed by
the DateRecord's date string); and whenever the endpoint check fails, the
Graph Assembler aborts with the fatal `AssemblyInvariantViolation` instead
of emitting output. -/
theorem c1_endpoints_resolve :
    (∀ cfg fn text out, runPipeline cfg fn text = Except.ok out →
      ∀ r ∈ out.relationships,
        endpointOk out.nodes r.from_node = true
        ∧ endpointOk out.nodes r.to_node = true)
    ∧ (∀ n rels, checkEndpoints n rels = false →
        assembleGraph n rels
          = Except.error PipelineError.assemblyInvariantViolation) := by
  constructor
  · intro cfg fn text out h r hr
    have hchk := (runPipeline_ok cfg fn text out h).2
    have hall := List.all_eq_true.mp hchk r hr
    exact ⟨(Bool.and_eq_true _ _).mp hall |>.1, (Bool.and_eq_true _ _).mp hall |>.2⟩
  · intro n rels h
    unfold assembleGraph
    rw [h]
    simp

/-- C1 witness: a concrete successful run, with both endpoints of its
MENTIONS relationship resolving among the emitted nodes. -/
theorem c1_witness :
    runPipeline cfgW "report.pdf" textW = Except.ok outW
    ∧ endpointOk outW.nodes "doc_1028" = true
    ∧ endpointOk outW.nodes "event_1" = true := by
  refine ⟨by rfl, ?_, ?_⟩
  · exact (c1_endpoints_resolve.1 cfgW "report.pdf" textW outW (by rfl)
      ⟨"doc_1028", "event_1", RelType.MENTIONS⟩ (by decide)).1
  · exact (c1_endpoints_resolve.1 cfgW "report.pdf" textW outW (by rfl)
      ⟨"doc_1028", "event_1", RelType.MENTIONS⟩ (by decide)).2

/-- C2: in every returned output there is at most one DateRecord per
calendar date value, and every OCCURRED_ON relationship references an
emitted DateRecord by its date value, so events sharing a resolved date
share the one DateRecord with that value. -/
theorem c2_one_dateRecord_per_date :
    ∀ cfg fn text out, runPipeline cfg fn text = Except.ok out →
      (out.nodes.dates.map DateRecord.date).Nodup
      ∧ ∀ r ∈ out.relationships, r.type = RelType.OCCURRED_ON →
          r.to_node ∈ out.nodes.dates.map DateRecord.date := by
  intro cfg fn text out h
  obtain ⟨hout, _⟩ := runPipeline_ok cfg fn text out h
  subst hout
  have hinv := stateInv_normalizeAll (extractStage cfg text)
  constructor
  · simpa [nodesOf] using hinv.datesNodup
  · intro r hr ht
    obtain ⟨a, ha, hra⟩ := List.mem_flatMap.mp hr
    obtain ⟨d, hdv, hto⟩ := relsOfAssoc_occurred_on _ a r hra ht
    rw [hto]
    simpa [nodesOf] using hinv.assocDates a ha d hdv

/-- C2 witness: the concrete run has pairwise-distinct date values and its
OCCURRED_ON relationship points at an emitted date value. -/
theorem c2_witness :
    runPipeline cfgW "report.pdf" textW = Except.ok outW
    ∧ (outW.nodes.dates.map DateRecord.date).Nodup
    ∧ "2024-01-15T00:00:00Z" ∈ outW.nodes.dates.map DateRecord.date := by
  refine ⟨by rfl, (c2_one_dateRecord_per_date cfgW "report.pdf" textW outW
    (by rfl)).1, ?_⟩
  have := (c2_one_dateRecord_per_date cfgW "report.pdf" textW outW (by rfl)).2
    ⟨"event_1", "2024-01-15T00:00:00Z", RelType.OCCURRED_ON⟩ (by decide) rfl
  exact this

/-- C7 counterexample: in a concrete successful run the single (first)
emitted DocumentRecord does not carry the id `doc_1` that a per-type
counter starting at 1 would assign; its id suffix is the content-stable
filename hash instead, so within the document node type the claimed
counter-of-form rule fails. -/
theorem c7_counterexample :
    runPipeline cfgW "report.pdf" textW = Except.ok outW
    ∧ outW.nodes.documents.map DocumentRecord.id = ["doc_1028"]
    ∧ mkId "doc" 1 ≠ "doc_1028" := by
  refine ⟨by rfl, by decide, by decide⟩

/-- C7 amended: in every returned output, the event, location and entity
node types carry pairwise-distinct ids of form `<type>_<n>` with `n`
drawn from a per-type counter starting at 1 and increasing monotonically;
document and user ids are still pairwise distinct but derive a
content-stable suffix instead of a counter value; DateRecords receive no
id at all (their only field is the date value). -/
theorem c7_ids_amended :
    ∀ cfg fn text out, runPipeline cfg fn text = Except.ok out →
      (out.nodes.events.map EventNode.id
          = (List.range' 1 out.nodes.events.length).map (mkId "event")
        ∧ (out.nodes.events.map EventNode.id).Nodup)
      ∧ (out.nodes.locations.map LocationRecord.id
          = (List.range' 1 out.nodes.locations.length).map (mkId "loc")
        ∧ (out.nodes.locations.map LocationRecord.id).Nodup)
      ∧ (out.nodes.entities.map EntityRecord.id
          = (List.range' 1 out.nodes.entities.length).map (mkId "entity")
        ∧ (out.nodes.entities.map EntityRecord.id).Nodup)
      ∧ out.nodes.documents.map DocumentRecord.id = [docIdOf fn]
      ∧ (out.nodes.documents.map DocumentRecord.id).Nodup
      ∧ (out.nodes.users.map UserRecord.id).Nodup
      ∧ ∀ d ∈ out.nodes.dates, d = DateRecord.mk d.date := by
  intro cfg fn text out h
  obtain ⟨hout, _⟩ := runPipeline_ok cfg fn text out h
  subst hout
  have hinv := stateInv_normalizeAll (extractStage cfg text)
  have hrange : ∀ ty : String, ((List.range' 1
      (normalizeAll (extractStage cfg text)).events.length).map (mkId ty)).Nodup :=
    fun ty => (List.nodup_range' ..).map (mkId_injective ty)
  refine ⟨⟨?_, ?_⟩, ⟨?_, ?_⟩, ⟨?_, ?_⟩, ?_, ?_, ?_, ?_⟩
  · simpa [nodesOf] using hinv.eventIds
  · rw [show (nodesOf ⟨docIdOf fn, fn⟩ (normalizeAll (extractStage cfg text))).events.map
        EventNode.id = _ from by simpa [nodesOf] using hinv.eventIds]
    exact (List.nodup_range' ..).map (mkId_injective "event")
  · simpa [nodesOf] using hinv.locIds
  · rw [show (nodesOf ⟨docIdOf fn, fn⟩ (normalizeAll (extractStage cfg text))).locations.map
        LocationRecord.id = _ from by simpa [nodesOf] using hinv.locIds]
    exact (List.nodup_range' ..).map (mkId_injective "loc")
  · simpa [nodesOf] using hinv.entIds
  · rw [show (nodesOf ⟨docIdOf fn, fn⟩ (normalizeAll (extractStage cfg text))).entities.map
        EntityRecord.id = _ from by simpa [nodesOf] using hinv.entIds]
    exact (List.nodup_range' ..).map (mkId_injective "entity")
  · simp [nodesOf]
  · simp [nodesOf]
  · simp [nodesOf]
  · intro d _
    rfl

/-- C7 amended witness: the concrete run has counter-formed, distinct
event and entity ids. -/
theorem c7_witness :
    runPipeline cfgW "report.pdf" textW = Except.ok outW
    ∧ (outW.nodes.events.map EventNode.id).Nodup
    ∧ (outW.nodes.entities.map EntityRecord.id).Nodup := by
  refine ⟨by rfl,
    ((c7_ids_amended cfgW "report.pdf" textW outW (by rfl)).1).2,
    ((c7_ids_amended cfgW "report.pdf" textW outW (by rfl)).2.2.1).2⟩

/-- C8: for every input text that is blank after trimming, the pipeline
fails with `InputError(EmptyDocument)` before any extraction, emitting no
partial output. -/
theorem c8_empty_document :
    ∀ cfg fn text, (trimChars text.data).isEmpty = true →
      runPipeline cfg fn text
        = Except.error (PipelineError.inputError InputReason.emptyDocument) := by
  intro cfg fn text h
  unfold runPipeline
  rw [h]
  simp

/-- C8 witness: whitespace-only input fails with EmptyDocument even with
AI configured. -/
theorem c8_witness :
    runPipeline ⟨true, some []⟩ "x.pdf" "  \n "
      = Except.error (PipelineError.inputError InputReason.emptyDocument) :=
  c8_empty_document ⟨true, some []⟩ "x.pdf" "  \n " (by decide)

/-- C5: two runs on byte-identical input text with AI disabled produce
identical node/relationship sets (even under different AI-service
states), hence identical up to id numbering via the identity renaming. -/
theorem c5_deterministic :
    ∀ (fn : String) (r₁ r₂ : Option (List CandidateEvent)) (t₁ t₂ : String),
      t₁ = t₂ →
      runPipeline ⟨false, r₁⟩ fn t₁ = runPipeline ⟨false, r₂⟩ fn t₂ := by
  intro fn r₁ r₂ t₁ t₂ h
  subst h
  simp [runPipeline, extractStage]

/-- C5 witness: the concrete text yields the same output across two
AI-disabled runs with different latent AI responses. -/
theorem c5_witness :
    runPipeline ⟨false, none⟩ "report.pdf" textW
      = runPipeline ⟨false, some []⟩ "report.pdf" textW :=
  c5_deterministic "report.pdf" none (some []) textW textW rfl

/-- C4: exactly one extraction strategy contributes per run: the
orchestrator may step Extracting AI to Extracting Fallback on
AIUnavailable but never the reverse; with AI configured but unavailable
the pipeline output equals running the fallback directly; and every
extraction result is either the validated AI list or the fallback list,
never a merge. -/
theorem c4_strategy_exclusive :
    Step (OState.extracting Strategy.ai) (OState.extracting Strategy.fallback)
    ∧ ¬ Step (OState.extracting Strategy.fallback) (OState.extracting Strategy.ai)
    ∧ (∀ cfg fn text, cfg.aiEnabled = true → cfg.aiResponse = none →
        runPipeline cfg fn text = runPipeline ⟨false, none⟩ fn text)
    ∧ (∀ cfg text,
        (∃ evs, cfg.aiEnabled = true ∧ cfg.aiResponse = some evs
          ∧ extractStage cfg text = validateAI evs)
        ∨ extractStage cfg text = fallbackPatternExtract text) := by
  refine ⟨Step.aiUnavailable, ?_, ?_, ?_⟩
  · intro h
    cases h
  · intro cfg fn text h1 h2
    obtain ⟨e, r⟩ := cfg
    cases h1
    cases h2
    simp [runPipeline, extractStage, aiExtract]
  · intro cfg text
    obtain ⟨e, r⟩ := cfg
    cases e
    · right
      simp [extractStage]
    · cases r with
      | none => right; simp [extractStage, aiExtract]
      | some evs =>
        left
        exact ⟨evs, rfl, rfl, by simp [extractStage, aiExtract]⟩

/-- C4 witness: with AI enabled but timed out, the concrete run equals
the fallback-only run. -/
theorem c4_witness :
    runPipeline ⟨true, none⟩ "report.pdf" textW
      = runPipeline ⟨false, none⟩ "report.pdf" textW :=
  c4_strategy_exclusive.2.2.1 ⟨true, none⟩ "report.pdf" textW rfl rfl

/-- C6: two participant strings that differ only in letter case and
surrounding whitespace (equal canonical forms) resolve to the same single
EntityRecord: registering the second after the first returns the identical
state and the already-assigned id, creating no duplicate record. -/
theorem c6_entity_dedup :
    ∀ (st : NormState) (a b : String), canon a = canon b →
      registerEntity (registerEntity st a).1 b = registerEntity st a := by
  intro st a b hab
  cases h : lookupReg st.entReg (canon a) with
  | some id =>
    have h1 : registerEntity st a = (st, id) := by simp [registerEntity, h]
    rw [h1]
    simp [registerEntity, ← hab, h]
  | none =>
    have h1 : registerEntity st a
        = ({ st with
             entReg := ⟨st.entReg.pairs
               ++ [(canon a, mkId "entity" st.entReg.nextId)],
               st.entReg.nextId + 1⟩
             entities := st.entities
               ++ [⟨mkId "entity" st.entReg.nextId,
                    String.mk (trimChars a.data)⟩] },
           mkId "entity" st.entReg.nextId) := by
      simp [registerEntity, h]
    rw [h1]
    have hnone : st.entReg.pairs.find? (fun p => p.1 == canon a) = none := by
      cases hf : st.entReg.pairs.find? (fun p => p.1 == canon a) with
      | none => rfl
      | some p => rw [lookupReg, hf] at h; simp at h
    have hfind : lookupReg
        ⟨st.entReg.pairs ++ [(canon a, mkId "entity" st.entReg.nextId)],
          st.entReg.nextId + 1⟩ (canon b)
        = some (mkId "entity" st.entReg.nextId) := by
      rw [lookupReg, ← hab]
      simp only [List.find?_append, hnone, Option.none_or]
      simp
    simp [registerEntity, hfind]

/-- C6 witness: a name differing only in case and whitespace from an
already-registered one is reused, not duplicated. -/
theorem c6_witness :
    registerEntity (registerEntity NormState.init "  John DOE ").1 "john doe"
      = registerEntity NormState.init "  John DOE " :=
  c6_entity_dedup NormState.init "  John DOE " "john doe" (by decide)

/-- C3: on every input text the fallback pattern extractor succeeds with a
(possibly empty) candidate list — it never raises — and every field it
cannot resolve (date, location, participants) is left empty in the
produced candidate rather than causing an abort. -/
theorem c3_fallback_total :
    ∀ text : String,
      fallbackExtract text = Except.ok (fallbackPatternExtract text)
      ∧ ∀ ev ∈ fallbackPatternExtract text,
          (findDateTokens (wordsOf ev.provenance.data) = none →
            ev.rawDate = "")
          ∧ (findLocationTokens (wordsOf ev.provenance.data) = none →
            ev.rawLocation = "")
          ∧ (findParticipantPhrases (wordsOf ev.provenance.data)
              ((findLocationTokens (wordsOf ev.provenance.data)).getD []) = [] →
            ev.rawParticipants = "") := by
  intro text
  refine ⟨rfl, ?_⟩
  intro ev hev
  obtain ⟨s, hs, hcs⟩ := List.mem_filterMap.mp hev
  simp only [candidateOfSentence] at hcs
  cases hk : eventKeywords.find? (fun k => hasSub k (s.map lowerChar)) with
  | none => rw [hk] at hcs; simp at hcs
  | some kw =>
    rw [hk] at hcs
    simp only [Option.some.injEq] at hcs
    subst hcs
    refine ⟨fun h => ?_, fun h => ?_, fun h => ?_⟩
    · simp_all
    · simp_all
    · simp_all [joinPhrases]
      rfl

/-- C3 witness: a concrete malformed-field input yields one candidate
with an empty date field and the extractor reports success. -/
theorem c3_witness :
    fallbackExtract tW3 = Except.ok (fallbackPatternExtract tW3)
    ∧ evW.rawDate = "" := by
  exact ⟨(c3_fallback_total tW3).1,
    ((c3_fallback_total tW3).2 evW (by decide)).1 (by decide)⟩

/-! ### Timeline component theorems -/

theorem eventPasses_iff (f : TimelineFilter) (e : EventDto) :
    eventPasses f e = true ↔
      ((f.entities ≠ [] → ∃ en ∈ e.entities, en.id ∈ f.entities)
        ∧ (∀ s, f.dateRange.start = some s → s ≤ e.date)
        ∧ (∀ t, f.dateRange.stop = some t → e.date ≤ t)) := by
  obtain ⟨ents, ⟨os, ot⟩⟩ := f
  unfold eventPasses
  rcases os with _ | s <;> rcases ot with _ | t <;>
    rcases ents with _ | ⟨x, xs⟩ <;>
    simp [List.any_eq_true, Int.not_lt, or_iff_not_imp_left]

/-- C9: `filteredEvents` contains exactly those input events that pass
the entity filter (when it is non-empty, at least one participating
entity id must be selected) and the date-range filter (not earlier than
`start` when set, not later than `end` when set), and the result is
sorted in ascending date order. -/
theorem c9_filteredEvents_spec :
    ∀ (events : List EventDto) (f : TimelineFilter),
      (∀ e, e ∈ filteredEvents events f ↔
        (e ∈ events
          ∧ (f.entities ≠ [] → ∃ en ∈ e.entities, en.id ∈ f.entities)
          ∧ (∀ s, f.dateRange.start = some s → s ≤ e.date)
          ∧ (∀ t, f.dateRange.stop = some t → e.date ≤ t)))
      ∧ List.Sorted byDate (filteredEvents events f) := by
  intro events f
  constructor
  · intro e
    rw [filteredEvents, List.mem_insertionSort, List.mem_filter, eventPasses_iff]
  · exact List.sorted_insertionSort byDate _

/-- C9 witness: on a concrete event list and filter, a passing event is a
member of the filtered result and the result is date-sorted. -/
theorem c9_witness :
    (⟨"e2", "t2", "s2", 5, none, [⟨"2", "Ann"⟩]⟩ : EventDto)
      ∈ filteredEvents
        [⟨"e1", "t1", "s1", 9, none, [⟨"1", "Bob"⟩]⟩,
         ⟨"e2", "t2", "s2", 5, none, [⟨"2", "Ann"⟩]⟩]
        ⟨["2"], ⟨some 0, none⟩⟩
    ∧ List.Sorted byDate
        (filteredEvents
          [⟨"e1", "t1", "s1", 9, none, [⟨"1", "Bob"⟩]⟩,
           ⟨"e2", "t2", "s2", 5, none, [⟨"2", "Ann"⟩]⟩]
          ⟨["2"], ⟨some 0, none⟩⟩) := by
  constructor
  · exact ((c9_filteredEvents_spec
      [⟨"e1", "t1", "s1", 9, none, [⟨"1", "Bob"⟩]⟩,
       ⟨"e2", "t2", "s2", 5, none, [⟨"2", "Ann"⟩]⟩]
      ⟨["2"], ⟨some 0, none⟩⟩).1
      ⟨"e2", "t2", "s2", 5, none, [⟨"2", "Ann"⟩]⟩).mpr
      (by refine ⟨by decide, fun _ => ⟨⟨"2", "Ann"⟩, by decide, by decide⟩,
        fun s hs => ?_, by simp⟩
          · have hs0 : s = 0 := by simpa using hs.symm
            subst hs0
            decide)
  · exact (c9_filteredEvents_spec _ _).2

/-- C10: toggling an event id twice returns the original expansion set:
one application inserts the id exactly when it is absent and removes it
exactly when it is present. -/
theorem c10_toggle_involution :
    ∀ (expanded : Finset String) (eventId : String),
      toggleEventExpansion (toggleEventExpansion expanded eventId) eventId
        = expanded
      ∧ (eventId ∉ expanded →
          toggleEventExpansion expanded eventId = insert eventId expanded)
      ∧ (eventId ∈ expanded →
          toggleEventExpansion expanded eventId = expanded.erase eventId) := by
  intro expanded eventId
  refine ⟨?_, fun h => by simp [toggleEventExpansion, h],
    fun h => by simp [toggleEventExpansion, h]⟩
  by_cases h : eventId ∈ expanded
  · simp only [toggleEventExpansion, if_pos h, Finset.not_mem_erase, if_neg,
      not_false_iff]
    exact Finset.insert_erase h
  · simp only [toggleEventExpansion, if_neg h, Finset.mem_insert_self, if_pos]
    exact Finset.erase_insert h

/-- C10 witness: toggling a present id twice on a concrete set restores
it, and one toggle of an absent id inserts it. -/
theorem c10_witness :
    toggleEventExpansion (toggleEventExpansion {"e1"} "e1") "e1" = {"e1"}
    ∧ toggleEventExpansion {"e1"} "e2" = insert "e2" {"e1"} := by
  exact ⟨(c10_toggle_involution {"e1"} "e1").1,
    (c10_toggle_involution {"e1"} "e2").2.1 (by decide)⟩

end InvestiCAT
